import Mathlib

/-!
Shallow embedding of the Database Integrity & Encrypted Record Management
Engine of the `reactjs-client` repository (services `dataService` and
`databaseService`).  JavaScript objects are modelled as association lists
with first-match lookup, JS runtime values as the inductive `JsVal`, and
the PostgreSQL store as an explicit `DbState` record that the operations
thread through.  The AES cipher of `crypto-js` is abstracted as a pair of
functions (`Cipher`); decryption may fail (`Option`), matching the
`try/catch` around each per-field decrypt in the source.
-/

/-- JavaScript runtime value stored in a JSONB payload field. -/
inductive JsVal where
  | vstr : String → JsVal
  | vnum : Int → JsVal
  | vbool : Bool → JsVal
  | vnull : JsVal
deriving DecidableEq, Repr

/-- JavaScript truthiness of a `JsVal`, as used by the guard `if (data[field])`. -/
def truthy : JsVal → Bool
  | JsVal.vstr s => s != ""
  | JsVal.vnum n => n != 0
  | JsVal.vbool b => b
  | JsVal.vnull => false

/-- A JS object / JSONB document: ordered association list, first-match lookup. -/
abbrev Payload : Type := List (String × JsVal)

/-- The ciphertext map `encryptedFields`: field name to ciphertext string. -/
abbrev EncFields : Type := List (String × String)

/-- JS property read `obj[k]`: first matching binding, `none` for `undefined`. -/
def lookupF {α : Type} (k : String) : List (String × α) → Option α
  | [] => none
  | kv :: t => if k = kv.1 then some kv.2 else lookupF k t

/-- Key set of an association list (with multiplicity; membership is what matters). -/
def keysOf {α : Type} (l : List (String × α)) : List String :=
  l.map Prod.fst

/-- JS property assignment `obj[k] = v`: replace in place if present, else append. -/
def setF {α : Type} (l : List (String × α)) (k : String) (v : α) : List (String × α) :=
  match lookupF k l with
  | some _ => l.map (fun kv => if kv.1 = k then (k, v) else kv)
  | none => l ++ [(k, v)]

/-- JS `delete obj[k]`: remove every binding of the key. -/
def eraseKey {α : Type} (k : String) : List (String × α) → List (String × α)
  | [] => []
  | kv :: t => if kv.1 = k then eraseKey k t else kv :: eraseKey k t

/-- Symmetric cipher abstraction for the `crypto-js` AES wrapper: `enc` is
`AES.encrypt(·).toString()`, `dec` is `AES.decrypt(·).toString(Utf8)` with
`none` standing for the exception path caught by the source. -/
structure Cipher where
  enc : String → String
  dec : String → Option String

/-- The configured sensitive-field policy (`fieldsToEncrypt` default). -/
def sensitiveFields : List String := ["password", "token", "secret"]

/-- One pass of the `for (const field of fieldsToEncrypt)` loop of
`encryptSensitiveFields`: the guard `if (data[field])` tests truthiness on the
original object, encryption deletes the field from the cleartext copy and
records the ciphertext; `AES.encrypt` throws on a truthy non-string value,
modelled as `none`. -/
def encGo (c : Cipher) (P : Payload) :
    List String → Payload → EncFields → Option (Payload × EncFields)
  | [], enc, ef => some (enc, ef)
  | f :: rest, enc, ef =>
    match lookupF f P with
    | none => encGo c P rest enc ef
    | some v =>
      if truthy v then
        match v with
        | JsVal.vstr s => encGo c P rest (eraseKey f enc) (ef ++ [(f, c.enc s)])
        | _ => none
      else
        encGo c P rest enc ef

/-- `encryptSensitiveFields(data)` from `databaseService`: splits a payload
into the cleartext remainder and the ciphertext map over the sensitive-field
policy. -/
def encryptSensitiveFields (c : Cipher) (data : Payload) :
    Option (Payload × EncFields) :=
  encGo c data sensitiveFields data []

/-- `decryptSensitiveFields(data, encryptedFields)` from `databaseService`:
start from the cleartext object and set each encrypted field whose decryption
succeeds; a failed decryption is logged and the field left out. -/
def decryptSensitiveFields (c : Cipher) (data : Payload) (ef : EncFields) :
    Payload :=
  ef.foldl
    (fun acc fe =>
      match c.dec fe.2 with
      | some s => setF acc fe.1 (JsVal.vstr s)
      | none => acc)
    data

/-- A payload field counts toward encryption exactly when it is submitted as
a truthy (nonempty) string: that is the only shape the source both passes the
`if (data[field])` guard with and feeds to `AES.encrypt` without throwing. -/
def truthyStrAt (P : Payload) (k : String) : Bool :=
  match lookupF k P with
  | some (JsVal.vstr s) => s != ""
  | some _ => false
  | none => false

/-- One row of the physical `data_storage` relation. -/
structure StoredRow where
  id : Nat
  tableName : String
  data : Payload
  encryptedFields : EncFields
  userId : Option Nat
  createdAt : Nat
  updatedAt : Nat
  metadata : Payload
deriving DecidableEq, Repr

/-- One row of the physical `audit_logs` relation. -/
structure AuditRow where
  userId : Option Nat
  action : String
  tableName : String
  recordId : Nat
  oldValues : Option Payload
  newValues : Option Payload
deriving DecidableEq, Repr

/-- The PostgreSQL store and its environment, threaded through every
operation.  `rows` and `audit` are in insertion order with `createdAt`
monotone, so `ORDER BY created_at DESC` is list reversal.  `auditOk` models
whether the `INSERT INTO audit_logs` statement succeeds (its failure is
caught and swallowed by `logDataOperation`); `connOk` models reachability of
the store for the diagnostics subsystem; `permsOk` the capability probes of
`checkPermissions`; `ddlOk` whether the repair `CREATE TABLE`/`CREATE INDEX`
statements of `autoFixSchema` succeed (e.g. the create privilege its own
`checkPermissions` probes); `delOk` whether its orphan `DELETE` statements
succeed — each such failure is caught per step and reported as a
`Failed to …` fix entry. -/
structure DbState where
  rows : List StoredRow
  audit : List AuditRow
  nextId : Nat
  now : Nat
  users : List Nat
  connStrings : List (Nat × Option Nat)
  tables : List String
  indexes : List String
  auditOk : Bool
  connOk : Bool
  permsOk : Bool
  ddlOk : Bool := true
  delOk : Bool := true
deriving DecidableEq, Repr

/-- A record as returned to callers: decrypted data plus row metadata. -/
structure RecordView where
  id : Nat
  tableName : String
  data : Payload
  userId : Option Nat
  createdAt : Nat
  updatedAt : Nat
  metadata : Option Payload
deriving DecidableEq, Repr

/-- Result shape of `insertData`. -/
structure InsertResult where
  success : Bool
  message : String
  id : Option Nat
deriving DecidableEq, Repr

/-- Result shape of `updateData`/`deleteData`. -/
structure MutResult where
  success : Bool
  message : String
deriving DecidableEq, Repr

/-- Result shape of `getData`. -/
structure GetResult where
  success : Bool
  data : List RecordView
  total : Nat
deriving DecidableEq, Repr

/-- Result shape of `searchData`. -/
structure SearchResult where
  success : Bool
  data : List RecordView
deriving DecidableEq, Repr

/-- Result shape of `getDataStatistics`. -/
structure StatsResult where
  success : Bool
  totalRecords : Nat
  uniqueUsers : Nat
  earliestRecord : Option Nat
  latestRecord : Option Nat
deriving DecidableEq, Repr

/-- Result shape of `exportData` before external serialization. -/
structure ExportResult where
  success : Bool
  rows : List RecordView
  recordCount : Nat
deriving DecidableEq, Repr

/-- JS truthiness of the optional `userId` argument (a number or null):
`if (userId)` skips the owner filter for `0`, `null` and omitted. -/
def truthyId : Option Nat → Bool
  | some n => n != 0
  | none => false

/-- The `if (userId) query += ' AND user_id = $n'` pattern shared by the
read paths: rows pass the owner scope when no truthy owner is given, or when
their `user_id` equals the given one. -/
def scopeOk (uid : Option Nat) (r : StoredRow) : Bool :=
  if truthyId uid then r.userId == uid else true

/-- `WHERE table_name = $1` plus the optional owner scope. -/
def tableScope (s : DbState) (tbl : String) (uid : Option Nat) :
    List StoredRow :=
  s.rows.filter (fun r => r.tableName == tbl && scopeOk uid r)

/-- Shape a stored row into the caller-facing record with decrypted data. -/
def viewOf (c : Cipher) (r : StoredRow) : RecordView :=
  { id := r.id
    tableName := r.tableName
    data := decryptSensitiveFields c r.data r.encryptedFields
    userId := r.userId
    createdAt := r.createdAt
    updatedAt := r.updatedAt
    metadata := some r.metadata }

/-- `logDataOperation` from `dataService`: appends one audit row; its own
`try/catch` swallows a failing audit insert, so on failure the state is
returned unchanged and no error propagates to the caller. -/
def logDataOperation (s : DbState) (userId : Option Nat) (action : String)
    (tableName : String) (recordId : Nat) (oldValues newValues : Option Payload) :
    DbState :=
  if s.auditOk then
    { s with audit := s.audit ++
        [{ userId := userId, action := action, tableName := tableName,
           recordId := recordId, oldValues := oldValues,
           newValues := newValues }] }
  else
    s

/-- The `user_id INTEGER REFERENCES users(id)` foreign key of `data_storage`:
an insert naming a principal that does not exist fails at the store. -/
def fkViolation (s : DbState) (userId : Option Nat) : Bool :=
  match userId with
  | some u => !(decide (u ∈ s.users))
  | none => false

/-- `insertData(tableName, data, userId, metadata)` from `dataService`:
split and encrypt the payload, insert the row (the `user_id` foreign key to
`users` must hold), then log a CREATE audit entry with `before = null` and
`after` the cleartext subset. -/
def insertData (c : Cipher) (s : DbState) (tableName : String) (data : Payload)
    (userId : Option Nat) (metadata : Payload) : DbState × InsertResult :=
  match encryptSensitiveFields c data with
  | none => (s, { success := false, message := "Failed to insert data", id := none })
  | some (cleanData, encryptedFields) =>
    if fkViolation s userId then
      (s, { success := false, message := "Failed to insert data", id := none })
    else
      let row : StoredRow :=
        { id := s.nextId, tableName := tableName, data := cleanData,
          encryptedFields := encryptedFields, userId := userId,
          createdAt := s.now, updatedAt := s.now, metadata := metadata }
      let s1 := { s with rows := s.rows ++ [row], nextId := s.nextId + 1,
                         now := s.now + 1 }
      let s2 := logDataOperation s1 userId "INSERT" tableName s.nextId
        none (some cleanData)
      (s2, { success := true, message := "Data inserted successfully",
             id := some s.nextId })

/-- `getData(tableName, userId, {limit, offset})` from `dataService` with the
default ordering `created_at DESC`: newest first, one page, plus the total
count of the scope. -/
def getData (c : Cipher) (s : DbState) (tableName : String)
    (userId : Option Nat) (limit offset : Nat) : GetResult :=
  let inScope := tableScope s tableName userId
  { success := true
    data := (((inScope.reverse).drop offset).take limit).map (viewOf c)
    total := inScope.length }

/-- `updateData(id, data, userId)` from `dataService`: the lookup is keyed on
`id AND user_id`; a miss fails with the combined not-found/forbidden message
and touches nothing.  On a hit the incoming payload is re-split, new
ciphertexts are merged over the stored ones (JS spread), and an UPDATE audit
entry records the prior and new cleartext objects. -/
def updateData (c : Cipher) (s : DbState) (id : Nat) (data : Payload)
    (userId : Nat) : DbState × MutResult :=
  match s.rows.find? (fun r => r.id == id && r.userId == some userId) with
  | none => (s, { success := false, message := "Record not found or access denied" })
  | some existing =>
    match encryptSensitiveFields c data with
    | none => (s, { success := false, message := "Failed to update data" })
    | some (cleanData, encryptedFields) =>
      let merged := (existing.encryptedFields.map
          (fun kv =>
            match lookupF kv.1 encryptedFields with
            | some v => (kv.1, v)
            | none => kv)) ++
        encryptedFields.filter (fun kv => (lookupF kv.1 existing.encryptedFields).isNone)
      let newRows := s.rows.map (fun r =>
        if r.id == id && r.userId == some userId then
          { r with data := cleanData, encryptedFields := merged,
                   updatedAt := s.now }
        else r)
      let s1 := { s with rows := newRows, now := s.now + 1 }
      let s2 := logDataOperation s1 (some userId) "UPDATE" "data_storage" id
        (some existing.data) (some cleanData)
      (s2, { success := true, message := "Data updated successfully" })

/-- `deleteData(id, userId)` from `dataService`: same keyed ownership check
and failure message as update; on a hit the row is removed and a DELETE audit
entry records the prior cleartext with `after = null`. -/
def deleteData (s : DbState) (id : Nat) (userId : Nat) : DbState × MutResult :=
  match s.rows.find? (fun r => r.id == id && r.userId == some userId) with
  | none => (s, { success := false, message := "Record not found or access denied" })
  | some existing =>
    let newRows := s.rows.filter (fun r => !(r.id == id && r.userId == some userId))
    let s1 := { s with rows := newRows }
    let s2 := logDataOperation s1 (some userId) "DELETE" existing.tableName id
      (some existing.data) none
    (s2, { success := true, message := "Data deleted successfully" })

/-- PostgreSQL `LIKE`/`ILIKE` pattern matching over characters, lowered on
both sides for `ILIKE`: `%` matches any run, `_` exactly one character, and a
backslash escapes the following pattern character.  Structural recursion on
a fuel bound (every step shrinks `p.length + t.length`, so the fuel added by
`likeMatch` below never runs out). -/
def likeMatchF : Nat → List Char → List Char → Bool
  | 0, _, _ => false
  | _ + 1, [], t => t.isEmpty
  | fuel + 1, c :: p, t =>
    if c = '%' then
      likeMatchF fuel p t ||
        (match t with
         | [] => false
         | _ :: t2 => likeMatchF fuel (c :: p) t2)
    else if c = '_' then
      match t with
      | [] => false
      | _ :: t2 => likeMatchF fuel p t2
    else if c = '\\' then
      match p with
      | [] => false
      | e :: p2 =>
        match t with
        | [] => false
        | d :: t2 => (e.toLower == d.toLower) && likeMatchF fuel p2 t2
    else
      match t with
      | [] => false
      | d :: t2 => (c.toLower == d.toLower) && likeMatchF fuel p t2

/-- `ILIKE` with sufficient fuel. -/
def likeMatch (p t : List Char) : Bool :=
  likeMatchF (p.length + t.length + 1) p t

/-- The text PostgreSQL's `data->>'key'` yields for a JSONB member: strings
unquoted, numbers and booleans rendered, JSON `null` becomes SQL NULL. -/
def jsonFieldText : JsVal → Option String
  | JsVal.vstr s => some s
  | JsVal.vnum n => some (toString n)
  | JsVal.vbool b => some (if b then "true" else "false")
  | JsVal.vnull => none

/-- One search criterion as executed by the source:
`data->>'key' ILIKE '%value%'`; an absent field or JSON null is SQL NULL and
never matches. -/
def rowCrit (data : Payload) (key value : String) : Bool :=
  match lookupF key data with
  | none => false
  | some jv =>
    match jsonFieldText jv with
    | none => false
    | some t => likeMatch ('%' :: (value.data ++ ['%'])) t.data

/-- The full row predicate of `searchData`'s SQL. -/
def searchRowMatch (tbl : String) (criteria : List (String × String))
    (uid : Option Nat) (r : StoredRow) : Bool :=
  r.tableName == tbl && scopeOk uid r &&
    criteria.all (fun kv => rowCrit r.data kv.1 kv.2)

/-- `searchData(tableName, searchCriteria, userId, {limit, offset})` from
`dataService`: AND of the per-field ILIKE criteria, newest first, one page,
decrypted; always reports success. -/
def searchData (c : Cipher) (s : DbState) (tableName : String)
    (criteria : List (String × String)) (userId : Option Nat)
    (limit offset : Nat) : SearchResult :=
  let ms := s.rows.filter (searchRowMatch tableName criteria userId)
  { success := true
    data := (((ms.reverse).drop offset).take limit).map (viewOf c) }

/-- Case-insensitive substring containment, the matching notion the spec's
`Search` sentence describes (for comparison with the implemented ILIKE). -/
def containsCI (t sub : String) : Bool :=
  let tl := t.data.map Char.toLower
  let sl := sub.data.map Char.toLower
  (List.range (tl.length + 1)).any (fun i => (tl.drop i).take sl.length == sl)

/-- `getDataStatistics(tableName, userId)` from `dataService`:
`COUNT(*)`, `COUNT(DISTINCT user_id)` (NULLs ignored), `MIN`/`MAX` of
`created_at` over the scope. -/
def getDataStatistics (s : DbState) (tableName : String)
    (userId : Option Nat) : StatsResult :=
  let inScope := tableScope s tableName userId
  { success := true
    totalRecords := inScope.length
    uniqueUsers := ((inScope.filterMap (fun r => r.userId)).dedup).length
    earliestRecord := (inScope.map (fun r => r.createdAt)).min?
    latestRecord := (inScope.map (fun r => r.createdAt)).max? }

/-- `exportData(tableName, format, userId, {limit, includeMetadata})` from
`dataService`, restricted to the engine's responsibility: select the scope
newest first up to `limit`, decrypt, and attach metadata only when asked.
Format rendering (JSON/CSV/XML text) is external serialization. -/
def exportData (c : Cipher) (s : DbState) (tableName : String)
    (userId : Option Nat) (limit : Nat) (includeMetadata : Bool) :
    ExportResult :=
  let inScope := tableScope s tableName userId
  let page := (inScope.reverse).take limit
  let views := page.map (fun r =>
    { viewOf c r with
        metadata := if includeMetadata then some r.metadata else none })
  { success := true, rows := views, recordCount := views.length }

/-- A request body for the insert endpoint: either a field→value map or a
primitive (non-object) JSON value. -/
inductive ReqPayload where
  | obj : Payload → ReqPayload
  | prim : JsVal → ReqPayload
deriving DecidableEq, Repr

/-- Modelled from the spec: the payload-shape validation step of Insert.  The
route layer serving `POST /api/data/:tableName` is absent from the sources
(only its tests remain, which expect HTTP 400 with message
"Validation failed" for a non-object `data`); per spec section 4.2 step (1)
the operation rejects with a ValidationError any payload that is not a
field→value map before reaching the store. -/
def insertEndpoint (c : Cipher) (s : DbState) (tableName : String)
    (body : ReqPayload) (userId : Option Nat) (metadata : Payload) :
    DbState × InsertResult :=
  match body with
  | ReqPayload.prim _ =>
    (s, { success := false, message := "Validation failed", id := none })
  | ReqPayload.obj p => insertData c s tableName p userId metadata

/-- Result shape of the connection / permissions / performance probes. -/
structure CheckResult where
  success : Bool
  message : String
deriving DecidableEq, Repr

/-- Result shape of `validateSchema`. -/
structure SchemaCheck where
  success : Bool
  message : String
  missingTables : List String
deriving DecidableEq, Repr

/-- Result shape of `checkIntegrity`. -/
structure IntegrityCheck where
  success : Bool
  message : String
  totalOrphaned : Nat
deriving DecidableEq, Repr

/-- Result shape of `runDiagnostics`. -/
structure DiagResult where
  success : Bool
  health : String
  connection : CheckResult
  schema : SchemaCheck
  permissions : CheckResult
  performance : CheckResult
  integrity : IntegrityCheck
deriving DecidableEq, Repr

/-- The four logical tables `validateSchema` requires. -/
def requiredTables : List String :=
  ["users", "connection_strings", "data_storage", "audit_logs"]

/-- The four index names `checkMissingIndexes` requires. -/
def requiredIndexNames : List String :=
  ["idx_users_username", "idx_users_email",
   "idx_connection_strings_user_id", "idx_data_storage_table_name"]

/-- `testConnection` from `databaseService`: a probe query; any store error
is caught and reported as a failed result, never thrown. -/
def testConnection (s : DbState) : CheckResult :=
  if s.connOk then
    { success := true, message := "Connection successful" }
  else
    { success := false, message := "Connection failed" }

/-- `validateSchema` from `databaseService`: compare the live catalog with
the required table list; success iff nothing is missing. -/
def validateSchema (s : DbState) : SchemaCheck :=
  if s.connOk then
    let missing := requiredTables.filter (fun t => !(decide (t ∈ s.tables)))
    if missing.isEmpty then
      { success := true, message := "Schema is valid", missingTables := missing }
    else
      { success := false, message := "Missing tables detected",
        missingTables := missing }
  else
    { success := false, message := "Schema validation failed",
      missingTables := [] }

/-- `checkPermissions` from `databaseService`: success iff every capability
probe is true. -/
def checkPermissions (s : DbState) : CheckResult :=
  if s.connOk then
    if s.permsOk then
      { success := true, message := "All permissions granted" }
    else
      { success := false, message := "Some permissions missing" }
  else
    { success := false, message := "Permission check failed" }

/-- `checkPerformance` from `databaseService`: best-effort statistics; the
optional `pg_stat_statements` facility being absent is tolerated, so the
check succeeds whenever the store is reachable. -/
def checkPerformance (s : DbState) : CheckResult :=
  if s.connOk then
    { success := true, message := "Performance check completed" }
  else
    { success := false, message := "Performance check failed" }

/-- Orphaned `connection_strings` rows: non-null owner no longer in `users`. -/
def orphanedConn (s : DbState) : List (Nat × Option Nat) :=
  s.connStrings.filter (fun row =>
    match row.2 with
    | some u => !(decide (u ∈ s.users))
    | none => false)

/-- Orphaned `data_storage` rows: non-null owner no longer in `users`. -/
def orphanedData (s : DbState) : List StoredRow :=
  s.rows.filter (fun r =>
    match r.userId with
    | some u => !(decide (u ∈ s.users))
    | none => false)

/-- Grand total of orphaned rows across the two audited relations. -/
def totalOrphanedCount (s : DbState) : Nat :=
  (orphanedConn s).length + (orphanedData s).length

/-- `checkIntegrity` from `databaseService`: success iff no orphans. -/
def checkIntegrity (s : DbState) : IntegrityCheck :=
  if s.connOk then
    if totalOrphanedCount s = 0 then
      { success := true, message := "No integrity issues found",
        totalOrphaned := totalOrphanedCount s }
    else
      { success := false, message := "Orphaned records detected",
        totalOrphaned := totalOrphanedCount s }
  else
    { success := false, message := "Integrity check failed", totalOrphaned := 0 }

/-- `runDiagnostics` from `databaseService`: runs the connection probe and
then every sub-check unconditionally (each catches its own errors), reports
`healthy` iff all succeeded, and itself returns `success: true` as long as
no exception escapes the sub-checks — which none does, since every check
returns a caught failure result instead of throwing. -/
def runDiagnostics (s : DbState) : DiagResult :=
  let conn := testConnection s
  let sch := validateSchema s
  let perm := checkPermissions s
  let perf := checkPerformance s
  let integ := checkIntegrity s
  let overall := conn.success && sch.success && perm.success &&
    perf.success && integ.success
  { success := true
    health := if overall then "healthy" else "issues_detected"
    connection := conn
    schema := sch
    permissions := perm
    performance := perf
    integrity := integ }

/-- The `missingTables` list `autoFixSchema` iterates over. -/
def missingTablesOf (s : DbState) : List String :=
  (validateSchema s).missingTables

/-- The store after the `CREATE TABLE` loop of `autoFixSchema` (DDL modelled
as succeeding). -/
def afterTables (s : DbState) : DbState :=
  { s with tables := s.tables ++ missingTablesOf s }

/-- `checkMissingIndexes` from `databaseService`: the required indexes absent
from the live catalog. -/
def checkMissingIndexes (s : DbState) : List String :=
  requiredIndexNames.filter (fun i => !(decide (i ∈ s.indexes)))

/-- The store after the `CREATE INDEX IF NOT EXISTS` loop of `autoFixSchema`. -/
def afterIndexes (s : DbState) : DbState :=
  { s with indexes := s.indexes ++ checkMissingIndexes s }

/-- The store after the two orphan `DELETE` statements of `autoFixSchema`:
rows of `connection_strings` and `data_storage` whose non-null `user_id` is
not in `users` are removed. -/
def orphanFixState (s : DbState) : DbState :=
  { s with
      connStrings := s.connStrings.filter (fun row =>
        match row.2 with
        | some u => decide (u ∈ s.users)
        | none => true)
      rows := s.rows.filter (fun r =>
        match r.userId with
        | some u => decide (u ∈ s.users)
        | none => true) }

/-- The error message of a failing repair statement (`error.message` in the
source); its exact text is environment-dependent and opaque to the engine,
modelled as a fixed representative string. -/
def dbErrMsg : String := "permission denied"

/-- The fix entry the per-table try/catch of `autoFixSchema` records: the
success line on a created table, the `Failed to create table …` line when the
`CREATE TABLE` statement throws. -/
def tableFixMsg (ddlOk : Bool) (t : String) : String :=
  if ddlOk then "Created missing table: " ++ t
  else "Failed to create table " ++ t ++ ": " ++ dbErrMsg

/-- The fix entry the per-index try/catch of `autoFixSchema` records. -/
def indexFixMsg (ddlOk : Bool) (i : String) : String :=
  if ddlOk then "Created missing index: " ++ i
  else "Failed to create index " ++ i ++ ": " ++ dbErrMsg

/-- `autoFixSchema` from `databaseService`: create missing tables, create
missing indexes, then delete orphaned rows.  Every step is wrapped in its own
try/catch: a failing `CREATE TABLE`/`CREATE INDEX` (`ddlOk = false`) leaves
the catalog unchanged and records a `Failed to create …` entry, a failing
orphan `DELETE` (`delOk = false`) leaves the rows and records
`Failed to clean orphaned records: …`; later steps still run.  `none` models
the outer catch (`Auto-fix failed`) reached when the store is unreachable. -/
def autoFixSchema (s : DbState) : DbState × Option (List String) :=
  if s.connOk then
    let fixesT := (missingTablesOf s).map (tableFixMsg s.ddlOk)
    let s1 := if s.ddlOk then afterTables s else s
    let fixesI := (checkMissingIndexes s1).map (indexFixMsg s.ddlOk)
    let s2 := if s.ddlOk then afterIndexes s1 else s1
    let ic := checkIntegrity s2
    if ic.success = false ∧ 0 < ic.totalOrphaned then
      if s.delOk then
        (orphanFixState s2, some (fixesT ++ fixesI ++
          ["Cleaned up " ++ toString ic.totalOrphaned ++ " orphaned records"]))
      else
        (s2, some (fixesT ++ fixesI ++
          ["Failed to clean orphaned records: " ++ dbErrMsg]))
    else
      (s2, some (fixesT ++ fixesI))
  else
    (s, none)

/-- The identity cipher: a concrete `Cipher` whose decryption inverts its
encryption, used to instantiate theorems on concrete inputs. -/
def idCipher : Cipher := { enc := fun s => s, dec := fun s => some s }

/-- A cipher whose every decryption fails (corrupt ciphertext / rotated key). -/
def failCipher : Cipher := { enc := fun s => s, dec := fun _ => none }

/-- A small healthy store: all required tables and indexes present, two
principals, no records yet. -/
def baseState : DbState :=
  { rows := [], audit := [], nextId := 1, now := 0, users := [3, 7],
    connStrings := [], tables := requiredTables, indexes := requiredIndexNames,
    auditOk := true, connOk := true, permsOk := true }

/-- Scenario B payload: one plain field and one sensitive field. -/
def regPayload : Payload :=
  [("username", JsVal.vstr "bob"), ("password", JsVal.vstr "secret1")]

/-- A stored `items` row whose `name` is the cleartext string `abc`. -/
def exRow : StoredRow :=
  { id := 1, tableName := "items", data := [("name", JsVal.vstr "abc")],
    encryptedFields := [], userId := some 7, createdAt := 0, updatedAt := 0,
    metadata := [] }

/-- A store holding exactly `exRow`. -/
def exSearchState : DbState :=
  { baseState with rows := [exRow], nextId := 2 }

/-- The healthy store with an unreachable database. -/
def downState : DbState := { baseState with connOk := false }

/-- The healthy store missing its `audit_logs` table (scenario D). -/
def missingAudit : DbState :=
  { baseState with tables := ["users", "connection_strings", "data_storage"] }

/-- The healthy store whose `audit_logs` inserts fail. -/
def noAuditState : DbState := { baseState with auditOk := false }

/-- The scenario-D store (missing `audit_logs`) whose repair DDL statements
persistently fail (e.g. the connected role lacks the create privilege). -/
def ddlFailState : DbState := { missingAudit with ddlOk := false }

/-- Lookup in the in-place-update branch of `setF`. -/
theorem lookupF_mapset {α : Type} (l : List (String × α)) (k : String) (v : α) :
    lookupF k (l.map (fun kv => if kv.1 = k then (k, v) else kv)) =
      match lookupF k l with
      | some _ => some v
      | none => none := by
  induction l with
  | nil => rfl
  | cons kv t ih =>
    by_cases hk : k = kv.1
    · subst hk
      simp [lookupF]
    · have hk2 : ¬(kv.1 = k) := fun h => hk h.symm
      simp only [List.map_cons, if_neg hk2, lookupF, if_neg hk]
      exact ih

/-- Lookup of another key in the in-place-update branch of `setF`. -/
theorem lookupF_mapset_ne {α : Type} (l : List (String × α)) (q k : String)
    (v : α) (h : q ≠ k) :
    lookupF q (l.map (fun kv => if kv.1 = k then (k, v) else kv)) =
      lookupF q l := by
  induction l with
  | nil => rfl
  | cons kv t ih =>
    by_cases hk : kv.1 = k
    · have h1 : ¬(q = k) := h
      have h2 : ¬(q = kv.1) := by rw [hk]; exact h
      simp only [List.map_cons, if_pos hk, lookupF, if_neg h1, if_neg h2]
      exact ih
    · simp only [List.map_cons, if_neg hk, lookupF]
      by_cases hq : q = kv.1
      · simp [if_pos hq]
      · simp only [if_neg hq]
        exact ih

/-- Lookup of the appended key in the append branch of `setF`. -/
theorem lookupF_append_self {α : Type} (l : List (String × α)) (k : String)
    (v : α) (h : lookupF k l = none) : lookupF k (l ++ [(k, v)]) = some v := by
  induction l with
  | nil => simp [lookupF]
  | cons kv t ih =>
    simp only [lookupF] at h
    by_cases hk : k = kv.1
    · rw [if_pos hk] at h
      exact absurd h (by simp)
    · rw [if_neg hk] at h
      simp only [List.cons_append, lookupF, if_neg hk]
      exact ih h

/-- Lookup of another key in the append branch of `setF`. -/
theorem lookupF_append_ne {α : Type} (l : List (String × α)) (q k : String)
    (v : α) (h : q ≠ k) : lookupF q (l ++ [(k, v)]) = lookupF q l := by
  induction l with
  | nil => simp [lookupF, if_neg h]
  | cons kv t ih =>
    simp only [List.cons_append, lookupF]
    by_cases hq : q = kv.1
    · simp [if_pos hq]
    · simp only [if_neg hq]
      exact ih

/-- Lookup after `setF` at the written key yields the written value. -/
theorem lookupF_setF_self {α : Type} (l : List (String × α)) (k : String)
    (v : α) : lookupF k (setF l k v) = some v := by
  unfold setF
  cases hl : lookupF k l with
  | none => exact lookupF_append_self l k v hl
  | some w => rw [lookupF_mapset, hl]

/-- Lookup after `setF` at a different key is unchanged. -/
theorem lookupF_setF_ne {α : Type} (l : List (String × α)) (q k : String)
    (v : α) (h : q ≠ k) : lookupF q (setF l k v) = lookupF q l := by
  unfold setF
  cases hl : lookupF k l with
  | none => exact lookupF_append_ne l q k v h
  | some w => exact lookupF_mapset_ne l q k v h

/-- Lookup of an erased key is `none`. -/
theorem lookupF_eraseKey_self {α : Type} (l : List (String × α)) (k : String) :
    lookupF k (eraseKey k l) = none := by
  induction l with
  | nil => rfl
  | cons kv t ih =>
    by_cases hk : kv.1 = k
    · rw [eraseKey, if_pos hk]
      exact ih
    · have h2 : ¬(k = kv.1) := fun h => hk h.symm
      rw [eraseKey, if_neg hk, lookupF, if_neg h2]
      exact ih

/-- Lookup after erasing a different key is unchanged. -/
theorem lookupF_eraseKey_ne {α : Type} (l : List (String × α)) (q k : String)
    (h : q ≠ k) : lookupF q (eraseKey k l) = lookupF q l := by
  induction l with
  | nil => rfl
  | cons kv t ih =>
    by_cases hk : kv.1 = k
    · have h2 : ¬(q = kv.1) := by rw [hk]; exact h
      rw [eraseKey, if_pos hk, lookupF, if_neg h2]
      exact ih
    · rw [eraseKey, if_neg hk, lookupF, lookupF]
      by_cases hq : q = kv.1
      · rw [if_pos hq, if_pos hq]
      · rw [if_neg hq, if_neg hq]
        exact ih

/-- Membership in the key set of an erased list. -/
theorem mem_keysOf_eraseKey {α : Type} (l : List (String × α)) (k f : String) :
    k ∈ keysOf (eraseKey f l) ↔ (k ∈ keysOf l ∧ k ≠ f) := by
  induction l with
  | nil => simp [eraseKey, keysOf]
  | cons kv t ih =>
    by_cases hf : kv.1 = f
    · rw [eraseKey, if_pos hf]
      rw [ih]
      unfold keysOf
      simp only [List.map_cons, List.mem_cons]
      constructor
      · rintro ⟨hm, hne⟩
        exact ⟨Or.inr hm, hne⟩
      · rintro ⟨hm, hne⟩
        rcases hm with hm | hm
        · exact absurd (hm.trans hf) hne
        · exact ⟨hm, hne⟩
    · rw [eraseKey, if_neg hf]
      unfold keysOf
      simp only [List.map_cons, List.mem_cons]
      unfold keysOf at ih
      constructor
      · rintro (hm | hm)
        · constructor
          · exact Or.inl hm
          · rw [hm]; exact hf
        · rcases ih.mp hm with ⟨hm2, hne⟩
          exact ⟨Or.inr hm2, hne⟩
      · rintro ⟨hm | hm, hne⟩
        · exact Or.inl hm
        · exact Or.inr (ih.mpr ⟨hm, hne⟩)

/-- A successful lookup witnesses key membership. -/
theorem mem_keysOf_of_lookupF {α : Type} (l : List (String × α)) (k : String)
    (v : α) (h : lookupF k l = some v) : k ∈ keysOf l := by
  induction l with
  | nil => simp [lookupF] at h
  | cons kv t ih =>
    simp only [lookupF] at h
    by_cases hk : k = kv.1
    · unfold keysOf
      simp [hk]
    · rw [if_neg hk] at h
      exact List.mem_cons_of_mem _ (ih h)

/-- Decryption only writes keys listed in `encryptedFields`: lookups of other
keys fall through to the cleartext object. -/
theorem lookupF_decrypt_notin (c : Cipher) (k : String) :
    ∀ (ef : EncFields) (data : Payload), k ∉ keysOf ef →
      lookupF k (decryptSensitiveFields c data ef) = lookupF k data := by
  intro ef
  induction ef with
  | nil => intro data _; rfl
  | cons fe rest ih =>
    intro data hk
    have hk1 : k ≠ fe.1 := by
      intro h
      exact hk (by unfold keysOf; simp [h])
    have hk2 : k ∉ keysOf rest := by
      intro h
      exact hk (by unfold keysOf at h ⊢; simp [h])
    unfold decryptSensitiveFields
    rw [List.foldl_cons]
    cases hd : c.dec fe.2 with
    | none =>
      simpa [decryptSensitiveFields, hd] using ih data hk2
    | some s =>
      have := ih (setF data fe.1 (JsVal.vstr s)) hk2
      unfold decryptSensitiveFields at this
      simp only [hd]
      rw [this]
      exact lookupF_setF_ne data k fe.1 (JsVal.vstr s) hk1

/-- For a fixed key, the result of decryption depends on the cleartext object
only through that key's lookup. -/
theorem lookupF_decrypt_congr (c : Cipher) (k : String) :
    ∀ (ef : EncFields) (a b : Payload), lookupF k a = lookupF k b →
      lookupF k (decryptSensitiveFields c a ef) =
        lookupF k (decryptSensitiveFields c b ef) := by
  intro ef
  induction ef with
  | nil => intro a b h; exact h
  | cons fe rest ih =>
    intro a b h
    unfold decryptSensitiveFields
    rw [List.foldl_cons, List.foldl_cons]
    cases hd : c.dec fe.2 with
    | none =>
      simpa [decryptSensitiveFields, hd] using ih a b h
    | some s =>
      simp only [hd]
      have hset : lookupF k (setF a fe.1 (JsVal.vstr s)) =
          lookupF k (setF b fe.1 (JsVal.vstr s)) := by
        by_cases hk : k = fe.1
        · rw [hk, lookupF_setF_self, lookupF_setF_self]
        · rw [lookupF_setF_ne a k fe.1 _ hk, lookupF_setF_ne b k fe.1 _ hk]
          exact h
      exact ih _ _ hset

/-- Decrypting an appended singleton ciphertext that decrypts successfully
sets that field on the previously decrypted object. -/
theorem decrypt_append_single (c : Cipher) (data : Payload) (ef : EncFields)
    (f ev s : String) (hd : c.dec ev = some s) :
    decryptSensitiveFields c data (ef ++ [(f, ev)]) =
      setF (decryptSensitiveFields c data ef) f (JsVal.vstr s) := by
  unfold decryptSensitiveFields
  rw [List.foldl_append]
  simp [hd]

/-- Core round-trip invariant of the encryption loop: as long as the cleartext
copy still agrees with the original payload on the unprocessed sensitive
fields and none of them is already in the ciphertext accumulator, running the
loop and then decrypting is lookup-equivalent to decrypting the accumulator
directly. -/
theorem encGo_decrypt_lookup (c : Cipher) (P : Payload)
    (hc : ∀ x, c.dec (c.enc x) = some x) :
    ∀ (fs : List String) (enc : Payload) (ef : EncFields)
      (enc2 : Payload) (ef2 : EncFields),
      fs.Nodup →
      (∀ f ∈ fs, lookupF f enc = lookupF f P) →
      (∀ f ∈ fs, f ∉ keysOf ef) →
      encGo c P fs enc ef = some (enc2, ef2) →
      ∀ k, lookupF k (decryptSensitiveFields c enc2 ef2) =
        lookupF k (decryptSensitiveFields c enc ef) := by
  intro fs
  induction fs with
  | nil =>
    intro enc ef enc2 ef2 _ _ _ hgo k
    unfold encGo at hgo
    cases hgo
    rfl
  | cons f rest ih =>
    intro enc ef enc2 ef2 hnd h1 h3 hgo k
    have hndr : rest.Nodup := (List.nodup_cons.mp hnd).2
    have hfr : f ∉ rest := (List.nodup_cons.mp hnd).1
    unfold encGo at hgo
    cases hP : lookupF f P with
    | none =>
      simp only [hP] at hgo
      exact ih enc ef enc2 ef2 hndr
        (fun g hg => h1 g (List.mem_cons_of_mem f hg))
        (fun g hg => h3 g (List.mem_cons_of_mem f hg)) hgo k
    | some v =>
      simp only [hP] at hgo
      by_cases htv : truthy v = true
      · rw [if_pos htv] at hgo
        cases v with
        | vstr s =>
          have step : ∀ q, lookupF q (decryptSensitiveFields c (eraseKey f enc)
              (ef ++ [(f, c.enc s)])) =
              lookupF q (decryptSensitiveFields c enc ef) := by
            intro q
            rw [decrypt_append_single c (eraseKey f enc) ef f (c.enc s) s (hc s)]
            by_cases hq : q = f
            · rw [hq, lookupF_setF_self]
              rw [lookupF_decrypt_notin c f ef enc (h3 f (List.mem_cons_self f rest))]
              rw [h1 f (List.mem_cons_self f rest), hP]
            · rw [lookupF_setF_ne _ q f _ hq]
              apply lookupF_decrypt_congr
              exact lookupF_eraseKey_ne enc q f hq
          have h1' : ∀ g ∈ rest, lookupF g (eraseKey f enc) = lookupF g P := by
            intro g hg
            have hgf : g ≠ f := fun h => hfr (h ▸ hg)
            rw [lookupF_eraseKey_ne enc g f hgf]
            exact h1 g (List.mem_cons_of_mem f hg)
          have h3' : ∀ g ∈ rest, g ∉ keysOf (ef ++ [(f, c.enc s)]) := by
            intro g hg hmem
            have hgf : g ≠ f := fun h => hfr (h ▸ hg)
            unfold keysOf at hmem
            rw [List.map_append] at hmem
            rcases List.mem_append.mp hmem with hm | hm
            · exact h3 g (List.mem_cons_of_mem f hg) hm
            · simp at hm
              exact hgf hm
          have := ih (eraseKey f enc) (ef ++ [(f, c.enc s)]) enc2 ef2 hndr h1' h3' hgo k
          rw [this, step k]
        | vnum n => simp at hgo
        | vbool b => simp at hgo
        | vnull => simp [truthy] at htv
      · rw [if_neg htv] at hgo
        exact ih enc ef enc2 ef2 hndr
          (fun g hg => h1 g (List.mem_cons_of_mem f hg))
          (fun g hg => h3 g (List.mem_cons_of_mem f hg)) hgo k

/-- Round-trip of the sensitive-field split: under a cipher whose decryption
inverts encryption, decrypting a freshly split payload restores every field
of the submitted payload (the claim of spec section 8, field level). -/
theorem encrypt_decrypt_roundtrip (c : Cipher) (P : Payload)
    (clean : Payload) (ef : EncFields)
    (hc : ∀ x, c.dec (c.enc x) = some x)
    (henc : encryptSensitiveFields c P = some (clean, ef)) :
    ∀ k, lookupF k (decryptSensitiveFields c clean ef) = lookupF k P := by
  intro k
  have hnd : sensitiveFields.Nodup := by decide
  have := encGo_decrypt_lookup c P hc sensitiveFields P [] clean ef hnd
    (fun _ _ => rfl) (by intro f _ h; simp [keysOf] at h) henc k
  rw [this]
  rfl

/-- A truthy-string field is present in the payload. -/
theorem lookupF_of_truthyStrAt (P : Payload) (k : String)
    (h : truthyStrAt P k = true) :
    ∃ s, lookupF k P = some (JsVal.vstr s) ∧ s ≠ "" := by
  unfold truthyStrAt at h
  cases hP : lookupF k P with
  | none => rw [hP] at h; simp at h
  | some v =>
    rw [hP] at h
    cases v with
    | vstr s => exact ⟨s, rfl, by simpa using h⟩
    | vnum n => simp at h
    | vbool b => simp at h
    | vnull => simp at h

/-- Key-set characterization of the encryption loop: a successful run moves
exactly the truthy-string sensitive fields from the cleartext copy into the
ciphertext accumulator. -/
theorem encGo_keys (c : Cipher) (P : Payload) :
    ∀ (fs : List String) (enc : Payload) (ef : EncFields)
      (enc2 : Payload) (ef2 : EncFields),
      encGo c P fs enc ef = some (enc2, ef2) →
      ∀ k,
        (k ∈ keysOf enc2 ↔
          (k ∈ keysOf enc ∧ ¬(k ∈ fs ∧ truthyStrAt P k = true))) ∧
        (k ∈ keysOf ef2 ↔
          (k ∈ keysOf ef ∨ (k ∈ fs ∧ truthyStrAt P k = true))) := by
  intro fs
  induction fs with
  | nil =>
    intro enc ef enc2 ef2 hgo k
    unfold encGo at hgo
    cases hgo
    simp
  | cons f rest ih =>
    intro enc ef enc2 ef2 hgo k
    unfold encGo at hgo
    cases hP : lookupF f P with
    | none =>
      simp only [hP] at hgo
      have hTf : truthyStrAt P f = false := by
        unfold truthyStrAt
        rw [hP]
      have := ih enc ef enc2 ef2 hgo k
      by_cases hk : k = f
      · subst hk
        simpa [hTf] using this
      · simpa [List.mem_cons, hk] using this
    | some v =>
      simp only [hP] at hgo
      by_cases htv : truthy v = true
      · rw [if_pos htv] at hgo
        cases v with
        | vstr s =>
          have hTf : truthyStrAt P f = true := by
            unfold truthyStrAt
            rw [hP]
            simpa [truthy] using htv
          have := ih (eraseKey f enc) (ef ++ [(f, c.enc s)]) enc2 ef2 hgo k
          rcases this with ⟨h1, h2⟩
          rw [mem_keysOf_eraseKey] at h1
          have hefapp : k ∈ keysOf (ef ++ [(f, c.enc s)]) ↔
              (k ∈ keysOf ef ∨ k = f) := by
            unfold keysOf
            simp
          rw [hefapp] at h2
          by_cases hk : k = f
          · subst hk
            constructor
            · rw [h1]
              simp [hTf]
            · rw [h2]
              simp [hTf]
          · constructor
            · rw [h1]
              simp only [List.mem_cons, hk, false_or]
              tauto
            · rw [h2]
              simp only [List.mem_cons, hk, false_or]
              tauto
        | vnum n => simp at hgo
        | vbool b => simp at hgo
        | vnull => simp [truthy] at htv
      · rw [if_neg htv] at hgo
        have hTf : truthyStrAt P f = false := by
          unfold truthyStrAt
          rw [hP]
          cases v with
          | vstr s => simpa [truthy] using htv
          | vnum n => rfl
          | vbool b => rfl
          | vnull => rfl
        have := ih enc ef enc2 ef2 hgo k
        by_cases hk : k = f
        · subst hk
          simpa [hTf] using this
        · simpa [List.mem_cons, hk] using this

/-- Key-set invariant of the sensitive-field split on a successful write:
cleartext and ciphertext key sets are disjoint, their union is the submitted
field set, and the ciphertext keys are exactly the truthy-string sensitive
fields. -/
theorem encrypt_split_keys (c : Cipher) (P : Payload) (clean : Payload)
    (ef : EncFields) (henc : encryptSensitiveFields c P = some (clean, ef)) :
    (∀ k, k ∈ keysOf ef → k ∉ keysOf clean) ∧
    (∀ k, k ∈ keysOf P ↔ (k ∈ keysOf clean ∨ k ∈ keysOf ef)) ∧
    (∀ k, k ∈ keysOf ef ↔ (k ∈ sensitiveFields ∧ truthyStrAt P k = true)) := by
  have hmain := encGo_keys c P sensitiveFields P [] clean ef henc
  have hA : ∀ k, k ∈ keysOf clean ↔
      (k ∈ keysOf P ∧ ¬(k ∈ sensitiveFields ∧ truthyStrAt P k = true)) :=
    fun k => (hmain k).1
  have hB : ∀ k, k ∈ keysOf ef ↔
      (k ∈ sensitiveFields ∧ truthyStrAt P k = true) := by
    intro k
    have := (hmain k).2
    simpa [keysOf] using this
  refine ⟨?_, ?_, hB⟩
  · intro k hef hcl
    exact ((hA k).mp hcl).2 ((hB k).mp hef)
  · intro k
    constructor
    · intro hP
      by_cases hs : k ∈ sensitiveFields ∧ truthyStrAt P k = true
      · exact Or.inr ((hB k).mpr hs)
      · exact Or.inl ((hA k).mpr ⟨hP, hs⟩)
    · intro h
      rcases h with h | h
      · exact ((hA k).mp h).1
      · rcases lookupF_of_truthyStrAt P k ((hB k).mp h).2 with ⟨s, hl, _⟩
        exact mem_keysOf_of_lookupF P k _ hl

/-- Appending the audit row never touches the data rows. -/
theorem logDataOperation_rows (s : DbState) (u : Option Nat) (a t : String)
    (rid : Nat) (o n : Option Payload) :
    (logDataOperation s u a t rid o n).rows = s.rows := by
  unfold logDataOperation
  split <;> rfl

/-- With a working audit relation, `logDataOperation` appends exactly one row. -/
theorem logDataOperation_audit (s : DbState) (u : Option Nat) (a t : String)
    (rid : Nat) (o n : Option Payload) (h : s.auditOk = true) :
    (logDataOperation s u a t rid o n).audit = s.audit ++
      [{ userId := u, action := a, tableName := t, recordId := rid,
         oldValues := o, newValues := n }] := by
  unfold logDataOperation
  rw [if_pos h]

/-- C1: for every payload accepted by Insert into a logical table, an
immediate Get on that table scoped to the same owner returns first the new
record, and its decrypted data view equals the submitted payload field by
field — sensitive and non-sensitive alike. -/
theorem insert_get_roundtrip (c : Cipher) (s : DbState) (tbl : String)
    (P : Payload) (uid : Option Nat) (md : Payload)
    (hc : ∀ x, c.dec (c.enc x) = some x)
    (hs : (insertData c s tbl P uid md).2.success = true) :
    ∃ v, (getData c (insertData c s tbl P uid md).1 tbl uid 1 0).data = [v] ∧
      v.id = s.nextId ∧
      ∀ k, lookupF k v.data = lookupF k P := by
  cases henc : encryptSensitiveFields c P with
  | none =>
    simp only [insertData, henc] at hs
    exact absurd hs (by simp)
  | some pr =>
    obtain ⟨clean, ef⟩ := pr
    by_cases hfk : fkViolation s uid = true
    · simp only [insertData, henc, hfk, if_true] at hs
      exact absurd hs (by simp)
    · have hfk2 : fkViolation s uid = false := by
        cases hb : fkViolation s uid
        · rfl
        · exact absurd hb hfk
      simp only [insertData, henc, hfk2, Bool.false_eq_true, if_false]
      refine ⟨viewOf c
        { id := s.nextId, tableName := tbl, data := clean,
          encryptedFields := ef, userId := uid, createdAt := s.now,
          updatedAt := s.now, metadata := md }, ?_, rfl, ?_⟩
      · unfold getData
        rw [tableScope, logDataOperation_rows]
        have hpred : (fun r => r.tableName == tbl && scopeOk uid r)
            { id := s.nextId, tableName := tbl, data := clean,
              encryptedFields := ef, userId := uid, createdAt := s.now,
              updatedAt := s.now, metadata := md } = true := by
          simp only [Bool.and_eq_true, beq_self_eq_true, true_and]
          unfold scopeOk
          split <;> simp
        rw [List.filter_append]
        simp only [List.filter_cons, hpred, List.filter_nil]
        rw [List.reverse_append]
        simp
      · intro k
        exact encrypt_decrypt_roundtrip c P clean ef hc henc k

/-- C1 witness: scenario B concrete instance under the identity cipher. -/
theorem insert_get_roundtrip_witness :
    (∀ x, idCipher.dec (idCipher.enc x) = some x) ∧
    (insertData idCipher baseState "accounts" regPayload (some 3) []).2.success
      = true ∧
    ∃ v, (getData idCipher
        (insertData idCipher baseState "accounts" regPayload (some 3) []).1
        "accounts" (some 3) 1 0).data = [v] ∧
      v.id = baseState.nextId ∧
      ∀ k, lookupF k v.data = lookupF k regPayload :=
  ⟨fun _ => rfl, by decide,
    insert_get_roundtrip idCipher baseState "accounts" regPayload (some 3) []
      (fun _ => rfl) (by decide)⟩

/-- C2 counterexample: with a failing `audit_logs` insert (its error is
caught and swallowed by `logDataOperation`), an Insert still reports success
while appending no audit entry — the mutation is visible without its audit
entry, so the claimed atomicity does not hold. -/
theorem audit_not_atomic_cex :
    (insertData idCipher noAuditState "inventory" [("name", JsVal.vstr "x")]
      (some 7) []).2.success = true ∧
    (insertData idCipher noAuditState "inventory" [("name", JsVal.vstr "x")]
      (some 7) []).1.audit = [] ∧
    (insertData idCipher noAuditState "inventory" [("name", JsVal.vstr "x")]
      (some 7) []).1.rows.length = 1 := by
  refine ⟨by decide, by decide, by decide⟩

/-- C2 amended: when the audit insert itself succeeds, every successful
Insert/Update/Delete appends exactly one audit entry with the before/after
cleartext views the source computes; but this pairing is not atomic — the
mutation also succeeds when the audit write fails (see the counterexample). -/
theorem mutation_audit_entry (c : Cipher) (s : DbState) (tbl : String)
    (P : Payload) (uid : Nat) (ouid : Option Nat) (md : Payload) (id : Nat)
    (hA : s.auditOk = true) :
    ((insertData c s tbl P ouid md).2.success = true →
      ∃ clean ef, encryptSensitiveFields c P = some (clean, ef) ∧
        (insertData c s tbl P ouid md).1.audit = s.audit ++
          [{ userId := ouid, action := "INSERT", tableName := tbl,
             recordId := s.nextId, oldValues := none,
             newValues := some clean }]) ∧
    ((updateData c s id P uid).2.success = true →
      ∃ r clean ef,
        s.rows.find? (fun r2 => r2.id == id && r2.userId == some uid) = some r ∧
        encryptSensitiveFields c P = some (clean, ef) ∧
        (updateData c s id P uid).1.audit = s.audit ++
          [{ userId := some uid, action := "UPDATE",
             tableName := "data_storage", recordId := id,
             oldValues := some r.data, newValues := some clean }]) ∧
    ((deleteData s id uid).2.success = true →
      ∃ r,
        s.rows.find? (fun r2 => r2.id == id && r2.userId == some uid) = some r ∧
        (deleteData s id uid).1.audit = s.audit ++
          [{ userId := some uid, action := "DELETE",
             tableName := r.tableName, recordId := id,
             oldValues := some r.data, newValues := none }]) := by
  refine ⟨?_, ?_, ?_⟩
  · intro hs
    cases henc : encryptSensitiveFields c P with
    | none =>
      simp only [insertData, henc] at hs
      exact absurd hs (by simp)
    | some pr =>
      obtain ⟨clean, ef⟩ := pr
      refine ⟨clean, ef, rfl, ?_⟩
      by_cases hfk : fkViolation s ouid = true
      · simp only [insertData, henc, hfk, if_true] at hs
        exact absurd hs (by simp)
      · have hfk2 : fkViolation s ouid = false := by
          cases hb : fkViolation s ouid
          · rfl
          · exact absurd hb hfk
        simp only [insertData, henc, hfk2, Bool.false_eq_true, if_false]
        simp [logDataOperation, hA]
  · intro hs
    cases hfind : s.rows.find? (fun r2 => r2.id == id && r2.userId == some uid) with
    | none =>
      simp only [updateData, hfind] at hs
      exact absurd hs (by simp)
    | some r =>
      cases henc : encryptSensitiveFields c P with
      | none =>
        simp only [updateData, hfind, henc] at hs
        exact absurd hs (by simp)
      | some pr =>
        obtain ⟨clean, ef⟩ := pr
        refine ⟨r, clean, ef, rfl, rfl, ?_⟩
        simp only [updateData, hfind, henc]
        simp [logDataOperation, hA]
  · intro hs
    cases hfind : s.rows.find? (fun r2 => r2.id == id && r2.userId == some uid) with
    | none =>
      simp only [deleteData, hfind] at hs
      exact absurd hs (by simp)
    | some r =>
      refine ⟨r, rfl, ?_⟩
      simp only [deleteData, hfind]
      simp [logDataOperation, hA]

/-- C2 witness: the amended audit pairing at a concrete healthy store. -/
theorem mutation_audit_entry_witness :
    baseState.auditOk = true ∧
    ((insertData idCipher baseState "accounts" regPayload (some 3) []).2.success = true →
      ∃ clean ef, encryptSensitiveFields idCipher regPayload = some (clean, ef) ∧
        (insertData idCipher baseState "accounts" regPayload (some 3) []).1.audit =
          baseState.audit ++
          [{ userId := some 3, action := "INSERT", tableName := "accounts",
             recordId := baseState.nextId, oldValues := none,
             newValues := some clean }]) :=
  ⟨rfl, (mutation_audit_entry idCipher baseState "accounts" regPayload 3
    (some 3) [] 1 rfl).1⟩

/-- C3: when no stored record carries the given `(id, ownerId)` pair —
missing id or wrong owner alike — Update and Delete both fail with exactly
"Record not found or access denied" and return the store untouched: no row
changes and no audit entry. -/
theorem notfound_update_delete (c : Cipher) (s : DbState) (id uid : Nat)
    (P : Payload) (h : ∀ r ∈ s.rows, ¬(r.id = id ∧ r.userId = some uid)) :
    updateData c s id P uid =
      (s, { success := false, message := "Record not found or access denied" }) ∧
    deleteData s id uid =
      (s, { success := false, message := "Record not found or access denied" }) := by
  have hfind : s.rows.find? (fun r => r.id == id && r.userId == some uid) = none := by
    rw [List.find?_eq_none]
    intro r hr
    intro hx
    simp only [Bool.and_eq_true, beq_iff_eq] at hx
    exact h r hr hx
  constructor
  · simp only [updateData, hfind]
  · simp only [deleteData, hfind]

/-- C3 witness: scenario C, updating and deleting a nonexistent id. -/
theorem notfound_update_delete_witness :
    (∀ r ∈ baseState.rows, ¬(r.id = 99999 ∧ r.userId = some 3)) ∧
    updateData idCipher baseState 99999 [("name", JsVal.vstr "x")] 3 =
      (baseState,
        { success := false, message := "Record not found or access denied" }) ∧
    deleteData baseState 99999 3 =
      (baseState,
        { success := false, message := "Record not found or access denied" }) :=
  ⟨by simp [baseState], by
    have := notfound_update_delete idCipher baseState 99999 3
      [("name", JsVal.vstr "x")] (by simp [baseState])
    exact this.1, by
    have := notfound_update_delete idCipher baseState 99999 3
      [("name", JsVal.vstr "x")] (by simp [baseState])
    exact this.2⟩

/-- C4 counterexample: a sensitive-named field submitted with a falsy value
(the empty string) is not encrypted — the write succeeds, `encryptedFields`
stays empty and `password` remains in the stored cleartext payload, contrary
to the claim that every submitted sensitive-named field is encrypted. -/
theorem falsy_sensitive_cleartext_cex :
    (insertData idCipher baseState "accounts" [("password", JsVal.vstr "")]
      (some 3) []).2.success = true ∧
    (insertData idCipher baseState "accounts" [("password", JsVal.vstr "")]
      (some 3) []).1.rows.map (fun r => (r.data, r.encryptedFields)) =
      [([("password", JsVal.vstr "")], [])] ∧
    "password" ∈ sensitiveFields := by
  refine ⟨by decide, by decide, by decide⟩

/-- C4 amended: on every accepted Insert the stored cleartext and ciphertext
key sets are disjoint and partition the submitted field set, and
`encryptedFields` holds exactly the sensitive-named fields submitted with a
truthy string value (falsy-valued sensitive fields stay in cleartext; truthy
non-string sensitive values make the write fail). -/
theorem encrypt_split_invariant (c : Cipher) (s : DbState) (tbl : String)
    (P : Payload) (uid : Option Nat) (md : Payload)
    (hs : (insertData c s tbl P uid md).2.success = true) :
    ∃ clean ef,
      encryptSensitiveFields c P = some (clean, ef) ∧
      ((insertData c s tbl P uid md).1.rows).getLast? = some
        { id := s.nextId, tableName := tbl, data := clean,
          encryptedFields := ef, userId := uid, createdAt := s.now,
          updatedAt := s.now, metadata := md } ∧
      (∀ k, k ∈ keysOf ef → k ∉ keysOf clean) ∧
      (∀ k, k ∈ keysOf P ↔ (k ∈ keysOf clean ∨ k ∈ keysOf ef)) ∧
      (∀ k, k ∈ keysOf ef ↔ (k ∈ sensitiveFields ∧ truthyStrAt P k = true)) := by
  cases henc : encryptSensitiveFields c P with
  | none =>
    simp only [insertData, henc] at hs
    exact absurd hs (by simp)
  | some pr =>
    obtain ⟨clean, ef⟩ := pr
    refine ⟨clean, ef, rfl, ?_, (encrypt_split_keys c P clean ef henc).1,
      (encrypt_split_keys c P clean ef henc).2.1,
      (encrypt_split_keys c P clean ef henc).2.2⟩
    by_cases hfk : fkViolation s uid = true
    · simp only [insertData, henc, hfk, if_true] at hs
      exact absurd hs (by simp)
    · have hfk2 : fkViolation s uid = false := by
        cases hb : fkViolation s uid
        · rfl
        · exact absurd hb hfk
      simp only [insertData, henc, hfk2, Bool.false_eq_true, if_false]
      rw [logDataOperation_rows]
      simp

/-- C4 witness: the amended split invariant at scenario B's payload. -/
theorem encrypt_split_invariant_witness :
    (insertData idCipher baseState "accounts" regPayload (some 3) []).2.success = true ∧
    ∃ clean ef,
      encryptSensitiveFields idCipher regPayload = some (clean, ef) ∧
      ((insertData idCipher baseState "accounts" regPayload (some 3) []).1.rows).getLast? = some
        { id := baseState.nextId, tableName := "accounts", data := clean,
          encryptedFields := ef, userId := some 3,
          createdAt := baseState.now, updatedAt := baseState.now,
          metadata := [] } ∧
      (∀ k, k ∈ keysOf ef → k ∉ keysOf clean) ∧
      (∀ k, k ∈ keysOf regPayload ↔ (k ∈ keysOf clean ∨ k ∈ keysOf ef)) ∧
      (∀ k, k ∈ keysOf ef ↔
        (k ∈ sensitiveFields ∧ truthyStrAt regPayload k = true)) :=
  ⟨by decide, encrypt_split_invariant idCipher baseState "accounts" regPayload
    (some 3) [] (by decide)⟩

/-- C5 counterexample: with the store unreachable the connection probe fails,
yet `runDiagnostics` does not fail with a connectivity error — it still
returns `success: true` (with `issues_detected`), and the sub-check results
it reports are exactly those of running every sub-check on the same state. -/
theorem diagnostics_probe_fail_cex :
    (testConnection downState).success = false ∧
    (runDiagnostics downState).success = true ∧
    (runDiagnostics downState).health = "issues_detected" ∧
    (runDiagnostics downState).schema = validateSchema downState ∧
    (runDiagnostics downState).integrity = checkIntegrity downState := by
  refine ⟨rfl, rfl, by decide, rfl, rfl⟩

/-- C5 amended: a failed connection probe does not abort `runDiagnostics`;
the call still reports `success: true`, every sub-check result is exactly
that sub-check run on the same state (each captures its own failure), and
overall health degrades to `issues_detected`. -/
theorem diagnostics_degraded_health (s : DbState)
    (h : (testConnection s).success = false) :
    (runDiagnostics s).success = true ∧
    (runDiagnostics s).health = "issues_detected" ∧
    (runDiagnostics s).connection = testConnection s ∧
    (runDiagnostics s).schema = validateSchema s ∧
    (runDiagnostics s).permissions = checkPermissions s ∧
    (runDiagnostics s).performance = checkPerformance s ∧
    (runDiagnostics s).integrity = checkIntegrity s := by
  refine ⟨rfl, ?_, rfl, rfl, rfl, rfl, rfl⟩
  simp only [runDiagnostics, h, Bool.false_and]
  rfl

/-- C5 witness: the amended behavior at the concrete unreachable store. -/
theorem diagnostics_degraded_health_witness :
    (testConnection downState).success = false ∧
    (runDiagnostics downState).success = true ∧
    (runDiagnostics downState).health = "issues_detected" :=
  ⟨rfl, (diagnostics_degraded_health downState rfl).1,
    (diagnostics_degraded_health downState rfl).2.1⟩

/-- Ciphertext entries of a field that never decrypts are no-ops of the
decryption fold, so they can be dropped without changing the result. -/
theorem decrypt_skip_failing (c : Cipher) (f : String) :
    ∀ (ef : EncFields) (data : Payload),
      (∀ p ∈ ef, p.1 = f → c.dec p.2 = none) →
      decryptSensitiveFields c data ef =
        decryptSensitiveFields c data
          (ef.filter (fun p => decide (p.1 ≠ f))) := by
  intro ef
  induction ef with
  | nil => intro data _; rfl
  | cons p rest ih =>
    intro data hfail
    have hrest : ∀ q ∈ rest, q.1 = f → c.dec q.2 = none :=
      fun q hq => hfail q (List.mem_cons_of_mem p hq)
    by_cases hp : p.1 = f
    · have hd : c.dec p.2 = none := hfail p (List.mem_cons_self p rest) hp
      have hstep : decryptSensitiveFields c data (p :: rest) =
          decryptSensitiveFields c data rest := by
        unfold decryptSensitiveFields
        rw [List.foldl_cons]
        simp only [hd]
      have hfilt : (p :: rest).filter (fun q => decide (q.1 ≠ f)) =
          rest.filter (fun q => decide (q.1 ≠ f)) := by
        rw [List.filter_cons]
        simp [hp]
      rw [hstep, hfilt]
      exact ih data hrest
    · have hfilt : (p :: rest).filter (fun q => decide (q.1 ≠ f)) =
          p :: rest.filter (fun q => decide (q.1 ≠ f)) := by
        rw [List.filter_cons]
        simp [hp]
      rw [hfilt]
      unfold decryptSensitiveFields
      rw [List.foldl_cons, List.foldl_cons]
      cases hd : c.dec p.2 with
      | none =>
        simp only [hd]
        exact ih data hrest
      | some sv =>
        simp only [hd]
        exact ih (setF data p.1 (JsVal.vstr sv)) hrest

/-- C8: a stored ciphertext field that fails to decrypt does not fail the
read — `getData` still succeeds, the failing field is simply omitted from
the decrypted view (its lookup is `none`), and the decryption of all other
fields is exactly what it would be without the corrupt entries. -/
theorem decrypt_degradation (c : Cipher) (s : DbState) (tbl : String)
    (uid : Option Nat) (limit offset : Nat) (data : Payload) (ef : EncFields)
    (f ev : String) (_hmem : (f, ev) ∈ ef)
    (hfail : ∀ p ∈ ef, p.1 = f → c.dec p.2 = none)
    (habs : lookupF f data = none) :
    (getData c s tbl uid limit offset).success = true ∧
    decryptSensitiveFields c data ef =
      decryptSensitiveFields c data (ef.filter (fun p => decide (p.1 ≠ f))) ∧
    lookupF f (decryptSensitiveFields c data ef) = none := by
  refine ⟨rfl, decrypt_skip_failing c f ef data hfail, ?_⟩
  rw [decrypt_skip_failing c f ef data hfail]
  rw [lookupF_decrypt_notin]
  · exact habs
  · intro hk
    unfold keysOf at hk
    rcases List.mem_map.mp hk with ⟨q, hq, hq1⟩
    rcases List.mem_filter.mp hq with ⟨_, hqf⟩
    rw [hq1] at hqf
    simp at hqf

/-- C8 witness: a record whose only ciphertext never decrypts, read under
the always-failing cipher. -/
theorem decrypt_degradation_witness :
    ((("password", "junk") ∈ ([("password", "junk")] : EncFields)) ∧
      (∀ p ∈ ([("password", "junk")] : EncFields), p.1 = "password" →
        failCipher.dec p.2 = none) ∧
      lookupF "password" ([("name", JsVal.vstr "x")] : Payload) = none) ∧
    (getData failCipher baseState "items" none 10 0).success = true ∧
    decryptSensitiveFields failCipher [("name", JsVal.vstr "x")]
        [("password", "junk")] =
      decryptSensitiveFields failCipher [("name", JsVal.vstr "x")]
        (([("password", "junk")] : EncFields).filter
          (fun p => decide (p.1 ≠ "password"))) ∧
    lookupF "password" (decryptSensitiveFields failCipher
      [("name", JsVal.vstr "x")] [("password", "junk")]) = none :=
  ⟨⟨by decide, fun p _ _ => rfl, rfl⟩,
    decrypt_degradation failCipher baseState "items" none 10 0
      [("name", JsVal.vstr "x")] [("password", "junk")] "password" "junk"
      (by decide) (fun p _ _ => rfl) rfl⟩

/-- The missing-table list of a reachable store, explicitly. -/
theorem validateSchema_missingTables (s : DbState) (h : s.connOk = true) :
    (validateSchema s).missingTables =
      requiredTables.filter (fun t => !(decide (t ∈ s.tables))) := by
  simp only [validateSchema]
  rw [if_pos h]
  split <;> rfl

/-- A reachable store with no orphans passes `checkIntegrity`. -/
theorem checkIntegrity_ok (s : DbState) (h : s.connOk = true)
    (h4 : totalOrphanedCount s = 0) :
    checkIntegrity s =
      { success := true, message := "No integrity issues found",
        totalOrphaned := totalOrphanedCount s } := by
  unfold checkIntegrity
  rw [if_pos h, if_pos h4]

/-- The orphan `DELETE` statements leave no orphan behind. -/
theorem totalOrphanedCount_orphanFixState (s : DbState) :
    totalOrphanedCount (orphanFixState s) = 0 := by
  have hc : orphanedConn (orphanFixState s) = [] := by
    unfold orphanedConn orphanFixState
    rw [List.filter_eq_nil_iff]
    intro row hrow
    rcases List.mem_filter.mp hrow with ⟨_, hkeep⟩
    cases hrv : row.2 with
    | none => simp [hrv]
    | some u =>
      rw [hrv] at hkeep
      simp only [decide_eq_true_eq] at hkeep
      simp [hrv, hkeep]
  have hr : orphanedData (orphanFixState s) = [] := by
    unfold orphanedData orphanFixState
    rw [List.filter_eq_nil_iff]
    intro r hrow
    rcases List.mem_filter.mp hrow with ⟨_, hkeep⟩
    cases hrv : r.userId with
    | none => simp [hrv]
    | some u =>
      rw [hrv] at hkeep
      simp only [decide_eq_true_eq] at hkeep
      simp [hrv, hkeep]
  unfold totalOrphanedCount
  rw [hc, hr]
  rfl

/-- On a store already holding every required table, index and no orphans,
`autoFixSchema` reports an empty fix list. -/
theorem autoFixSchema_fixed (t : DbState) (h1 : t.connOk = true)
    (h2 : ∀ n ∈ requiredTables, n ∈ t.tables)
    (h3 : ∀ n ∈ requiredIndexNames, n ∈ t.indexes)
    (h4 : totalOrphanedCount t = 0) :
    autoFixSchema t = (t, some []) := by
  have hmt : missingTablesOf t = [] := by
    rw [missingTablesOf, validateSchema_missingTables t h1]
    rw [List.filter_eq_nil_iff]
    intro a ha
    simp [h2 a ha]
  have hAT : afterTables t = t := by
    rw [afterTables, hmt, List.append_nil]
  have hmi : checkMissingIndexes t = [] := by
    rw [checkMissingIndexes]
    rw [List.filter_eq_nil_iff]
    intro a ha
    simp [h3 a ha]
  have hAI : afterIndexes t = t := by
    rw [afterIndexes, hmi, List.append_nil]
  simp only [autoFixSchema]
  rw [if_pos h1, hAT, ite_self, hmt, hmi, hAI, ite_self,
    checkIntegrity_ok t h1 h4]
  rw [if_neg]
  · simp
  · intro hcond
    exact absurd hcond.1 (by simp)

/-- After one `autoFixSchema` run on a reachable store whose repair
statements succeed, every required table and index exists and no orphan
remains. -/
theorem autoFixSchema_post (s : DbState) (h : s.connOk = true)
    (hd : s.ddlOk = true) (hdel : s.delOk = true) :
    (autoFixSchema s).1.connOk = true ∧
    (∀ n ∈ requiredTables, n ∈ (autoFixSchema s).1.tables) ∧
    (∀ n ∈ requiredIndexNames, n ∈ (autoFixSchema s).1.indexes) ∧
    totalOrphanedCount (autoFixSchema s).1 = 0 := by
  have htab : ∀ n ∈ requiredTables, n ∈ (afterTables s).tables := by
    intro n hn
    rw [afterTables]
    simp only [List.mem_append]
    by_cases hin : n ∈ s.tables
    · exact Or.inl hin
    · refine Or.inr ?_
      rw [missingTablesOf, validateSchema_missingTables s h]
      rw [List.mem_filter]
      exact ⟨hn, by simp [hin]⟩
  have hidx : ∀ n ∈ requiredIndexNames,
      n ∈ (afterIndexes (afterTables s)).indexes := by
    intro n hn
    rw [afterIndexes]
    simp only [List.mem_append]
    by_cases hin : n ∈ (afterTables s).indexes
    · exact Or.inl hin
    · refine Or.inr ?_
      rw [checkMissingIndexes, List.mem_filter]
      exact ⟨hn, by simp [hin]⟩
  have htab2 : ∀ n ∈ requiredTables,
      n ∈ (afterIndexes (afterTables s)).tables :=
    fun n hn => htab n hn
  simp only [autoFixSchema]
  rw [if_pos h, if_pos hd, if_pos hd, if_pos hdel]
  split
  case isTrue hcond =>
    exact ⟨h, fun n hn => htab2 n hn, fun n hn => hidx n hn,
      totalOrphanedCount_orphanFixState _⟩
  case isFalse hcond =>
    refine ⟨h, fun n hn => htab2 n hn, fun n hn => hidx n hn, ?_⟩
    by_contra hnz
    apply hcond
    have hpos : 0 < totalOrphanedCount (afterIndexes (afterTables s)) :=
      Nat.pos_of_ne_zero hnz
    have hne : ¬(totalOrphanedCount (afterIndexes (afterTables s)) = 0) :=
      Nat.pos_iff_ne_zero.mp hpos
    have hci : checkIntegrity (afterIndexes (afterTables s)) =
        { success := false, message := "Orphaned records detected",
          totalOrphaned :=
            totalOrphanedCount (afterIndexes (afterTables s)) } := by
      unfold checkIntegrity
      rw [if_pos (show (afterIndexes (afterTables s)).connOk = true from h)]
      rw [if_neg hne]
    rw [hci]
    exact ⟨rfl, hpos⟩

/-- C6 counterexample: with a persistently failing repair step (the
`CREATE TABLE` statements throw, e.g. for lack of the create privilege the
source's own `checkPermissions` probes), every run of AutoFix on the
scenario-D store reports the same `Failed to create table …` entry again —
the second run's fix list is not empty, refuting idempotence over every
store state. -/
theorem autofix_not_idempotent_cex :
    (autoFixSchema (autoFixSchema ddlFailState).1).2 =
      some ["Failed to create table audit_logs: permission denied"] ∧
    ((autoFixSchema (autoFixSchema ddlFailState).1).2 ≠
      some ([] : List String)) := by
  refine ⟨by decide, by decide⟩

/-- C6 amended: AutoFix is idempotent provided its repair statements succeed
— on any reachable store whose `CREATE TABLE`/`CREATE INDEX` and orphan
`DELETE` statements go through, an immediate second run with no intervening
drift reports an empty fix list (and leaves the store as the first run left
it); a persistently failing step instead reappears as a `Failed to …` entry
on every run. -/
theorem autofix_idempotent (s : DbState) (h : s.connOk = true)
    (hd : s.ddlOk = true) (hdel : s.delOk = true) :
    autoFixSchema (autoFixSchema s).1 = ((autoFixSchema s).1, some []) := by
  obtain ⟨h1, h2, h3, h4⟩ := autoFixSchema_post s h hd hdel
  exact autoFixSchema_fixed _ h1 h2 h3 h4

/-- C6 witness: scenario D — a store missing `audit_logs` with working
repair statements; the first run creates it and the immediate re-run reports
no fixes. -/
theorem autofix_idempotent_witness :
    missingAudit.connOk = true ∧
    missingAudit.ddlOk = true ∧
    missingAudit.delOk = true ∧
    (autoFixSchema missingAudit).2 = some ["Created missing table: audit_logs"] ∧
    autoFixSchema (autoFixSchema missingAudit).1 =
      ((autoFixSchema missingAudit).1, some []) :=
  ⟨rfl, rfl, rfl, by decide, autofix_idempotent missingAudit rfl rfl rfl⟩

/-- C7 counterexample: the source builds `data->>'key' ILIKE '%value%'`
without escaping, so `_` and `%` in a criterion value act as wildcards.  The
record `{name: "abc"}` is returned for the criterion `name: "a_c"` although
`"abc"` does not contain the substring `"a_c"` — search is not
substring-containment as claimed. -/
theorem search_wildcard_cex :
    ((searchData idCipher exSearchState "items" [("name", "a_c")] none 100 0).data).map
      (fun v => v.id) = [1] ∧
    containsCI "abc" "a_c" = false := by
  refine ⟨by decide, by decide⟩

/-- C7 amended: with pagination wide enough, `searchData` succeeds and
returns exactly the in-scope records of the logical table for which every
supplied criterion ILIKE-matches `%value%` against the cleartext field text
(`%`/`_` wildcards included; for wildcard-free values this is
case-insensitive substring containment); an empty criteria map imposes no
field condition, and a search matching nothing yields `success` with `[]`. -/
theorem search_ilike_semantics (c : Cipher) (s : DbState) (tbl : String)
    (criteria : List (String × String)) (uid : Option Nat) (limit : Nat)
    (hl : (s.rows.filter (searchRowMatch tbl criteria uid)).length ≤ limit) :
    (searchData c s tbl criteria uid limit 0).success = true ∧
    (∀ v, v ∈ (searchData c s tbl criteria uid limit 0).data ↔
      ∃ r, r ∈ s.rows ∧ r.tableName = tbl ∧ scopeOk uid r = true ∧
        (∀ kv ∈ criteria, rowCrit r.data kv.1 kv.2 = true) ∧
        v = viewOf c r) ∧
    ((∀ r ∈ s.rows, searchRowMatch tbl criteria uid r = false) →
      (searchData c s tbl criteria uid limit 0).data = []) := by
  have hdata : (searchData c s tbl criteria uid limit 0).data =
      ((s.rows.filter (searchRowMatch tbl criteria uid)).reverse).map
        (viewOf c) := by
    simp only [searchData, List.drop_zero]
    rw [List.take_of_length_le]
    rw [List.length_reverse]
    exact hl
  refine ⟨rfl, ?_, ?_⟩
  · intro v
    rw [hdata]
    simp only [List.mem_map, List.mem_reverse, List.mem_filter]
    constructor
    · rintro ⟨r, ⟨hr, hm⟩, rfl⟩
      simp only [searchRowMatch, Bool.and_eq_true, beq_iff_eq,
        List.all_eq_true] at hm
      exact ⟨r, hr, hm.1.1, hm.1.2, fun kv hkv => hm.2 kv hkv, rfl⟩
    · rintro ⟨r, hr, htbl, hscope, hcrit, rfl⟩
      refine ⟨r, ⟨hr, ?_⟩, rfl⟩
      simp only [searchRowMatch, Bool.and_eq_true, beq_iff_eq,
        List.all_eq_true]
      exact ⟨⟨htbl, hscope⟩, fun kv hkv => hcrit kv hkv⟩
  · intro hnone
    rw [hdata]
    have : s.rows.filter (searchRowMatch tbl criteria uid) = [] := by
      rw [List.filter_eq_nil_iff]
      intro r hr
      simp [hnone r hr]
    rw [this]
    rfl

/-- C7 witness: the amended semantics at the concrete one-record store (a
matching criterion; scenario E's empty result is an instance of the
universally quantified clauses). -/
theorem search_ilike_semantics_witness :
    ((exSearchState.rows.filter
      (searchRowMatch "items" [("name", "b")] none)).length ≤ 100) ∧
    (searchData idCipher exSearchState "items" [("name", "b")] none 100 0).success = true ∧
    (∀ v, v ∈ (searchData idCipher exSearchState "items" [("name", "b")]
        none 100 0).data ↔
      ∃ r, r ∈ exSearchState.rows ∧ r.tableName = "items" ∧
        scopeOk none r = true ∧
        (∀ kv ∈ [("name", "b")], rowCrit r.data kv.1 kv.2 = true) ∧
        v = viewOf idCipher r) :=
  ⟨by decide,
    (search_ilike_semantics idCipher exSearchState "items" [("name", "b")]
      none 100 (by decide)).1,
    (search_ilike_semantics idCipher exSearchState "items" [("name", "b")]
      none 100 (by decide)).2.1⟩

/-- C9: a payload that is not a field→value map is rejected by the Insert
operation's validation step with a ValidationError; nothing is stored and
the state is unchanged. -/
theorem insert_payload_validation (c : Cipher) (s : DbState) (tbl : String)
    (v : JsVal) (uid : Option Nat) (md : Payload) :
    insertEndpoint c s tbl (ReqPayload.prim v) uid md =
      (s, { success := false, message := "Validation failed", id := none }) :=
  rfl

/-- C10: on every read path — `getData`, `searchData`, `getDataStatistics`
and `exportData` — a falsy `userId` (`0`, null or omitted) makes the
`if (userId)` guard skip the owner filter entirely, so the call returns the
unscoped all-owners view; owner id `0` can never act as a read scope. -/
theorem falsy_owner_unscoped (c : Cipher) (s : DbState) (tbl : String)
    (uid : Option Nat) (limit offset elimit : Nat)
    (criteria : List (String × String)) (includeMetadata : Bool)
    (h : truthyId uid = false) :
    getData c s tbl uid limit offset = getData c s tbl none limit offset ∧
    searchData c s tbl criteria uid limit offset =
      searchData c s tbl criteria none limit offset ∧
    getDataStatistics s tbl uid = getDataStatistics s tbl none ∧
    exportData c s tbl uid elimit includeMetadata =
      exportData c s tbl none elimit includeMetadata := by
  have hsc : ∀ r, scopeOk uid r = scopeOk none r := by
    intro r
    unfold scopeOk
    rw [h]
    rfl
  have hts : tableScope s tbl uid = tableScope s tbl none := by
    unfold tableScope
    apply List.filter_congr
    intro r _
    rw [hsc r]
  have hsearch : s.rows.filter (searchRowMatch tbl criteria uid) =
      s.rows.filter (searchRowMatch tbl criteria none) := by
    apply List.filter_congr
    intro r _
    unfold searchRowMatch
    rw [hsc r]
  refine ⟨?_, ?_, ?_, ?_⟩
  · unfold getData
    rw [hts]
  · unfold searchData
    rw [hsearch]
  · unfold getDataStatistics
    rw [hts]
  · unfold exportData
    rw [hts]

/-- C10 witness: owner id `0` is treated as no scope on the concrete store. -/
theorem falsy_owner_unscoped_witness :
    truthyId (some 0) = false ∧
    getData idCipher exSearchState "items" (some 0) 10 0 =
      getData idCipher exSearchState "items" none 10 0 ∧
    getDataStatistics exSearchState "items" (some 0) =
      getDataStatistics exSearchState "items" none :=
  ⟨rfl,
    (falsy_owner_unscoped idCipher exSearchState "items" (some 0) 10 0 10 []
      false rfl).1,
    (falsy_owner_unscoped idCipher exSearchState "items" (some 0) 10 0 10 []
      false rfl).2.2.1⟩
